import Mathlib

/-!
Verification of the TaskFlow task manager core (title sanitizer, task store,
persistence adapter) against its natural-language specification.

The sanitizer regexes of `src/utils/sanitize.ts` are embedded as single-pass
character state machines over `List Char`; each machine implements exactly one
`String.prototype.replace(regex, repl)` call with JavaScript leftmost-match,
no-rescan-of-replacement semantics.
-/

namespace TaskFlow

/-- JavaScript whitespace (`\s`, also the set trimmed by `String.prototype.trim`). -/
def isJsWs (c : Char) : Bool :=
  c == ' ' || c == '\t' || c == '\n' || c == '\r' || c == '\x0b' || c == '\x0c' ||
  c == '\u00a0' || c == '\u1680' || c == '\u2000' || c == '\u2001' || c == '\u2002' ||
  c == '\u2003' || c == '\u2004' || c == '\u2005' || c == '\u2006' || c == '\u2007' ||
  c == '\u2008' || c == '\u2009' || c == '\u200a' || c == '\u2028' || c == '\u2029' ||
  c == '\u202f' || c == '\u205f' || c == '\u3000' || c == '\ufeff'

/-- Drop JS whitespace from the front of a character list. -/
def jsTrimL (l : List Char) : List Char := l.dropWhile isJsWs

/-- Drop JS whitespace from the back of a character list. -/
def jsTrimR (l : List Char) : List Char := (l.reverse.dropWhile isJsWs).reverse

/-- `String.prototype.trim` on a character list. -/
def jsTrim (l : List Char) : List Char := jsTrimR (jsTrimL l)

/-- `String.prototype.trim`. -/
def jsTrimStr (s : String) : String := ⟨jsTrim s.data⟩

/-- Scanner for `replace(/<[^>]+>/g, '')` (the `plainText` regex).
`none` = ordinary copying; `some buf` = inside a candidate tag opened by `<`,
with `buf` the characters consumed since.  A `>` with a nonempty buffer closes
a match (dropped); `<>` does not match (`+` needs one character); at end of
input an unclosed `<` is emitted literally, as the regex never matches it. -/
def ptAux : List Char → Option (List Char) → List Char
  | [], none => []
  | [], some buf => '<' :: buf
  | c :: r, none => if c = '<' then ptAux r (some []) else c :: ptAux r none
  | c :: r, some buf =>
      if c = '>' then
        if buf = [] then '<' :: '>' :: ptAux r none else ptAux r none
      else ptAux r (some (buf ++ [c]))

/-- `plainText` from `src/utils/sanitize.ts`: strip all HTML tags, then trim. -/
def plainText (s : String) : String := ⟨jsTrim (ptAux s.data none)⟩

/-- JS word character (`\w` / the character class used by `\b`). -/
def wordChar (c : Char) : Bool := c.isAlpha || c.isDigit || c = '_'

/-- Word boundary after a tag name: next character (if any) is not a word char. -/
def afterWordOk : List Char → Bool
  | [] => true
  | c :: _ => !(wordChar c)

/-- Case-insensitive match of a lowercase pattern against the head of the input. -/
def startsCI : List Char → List Char → Bool
  | [], _ => true
  | _ :: _, [] => false
  | p :: ps, c :: cs => (Char.toLower c == p) && startsCI ps cs

/-- The lookahead `(strong|em|u)\b` (case-insensitive) on a suffix. -/
def allowedWord (l : List Char) : Bool :=
  (startsCI "strong".data l && afterWordOk (l.drop 6)) ||
  (startsCI "em".data l && afterWordOk (l.drop 2)) ||
  (startsCI "u".data l && afterWordOk (l.drop 1))

/-- The lookahead `\/?(?:strong|em|u)\b` of the tag-stripping regex, applied to
the characters following a `<`. -/
def allowedLook (l : List Char) : Bool :=
  match l with
  | '/' :: r => allowedWord r
  | _ => allowedWord l

/-- State of the `<X(\s[^>]*)?>` replacement scanner. -/
inductive ROState where
  | copy
  | sawLt
  | sawTag (oc : Char)
  | inAttrs (oc : Char) (buf : List Char)

/-- Scanner for `replace(/<X(\s[^>]*)?>/gi, repl)` with `X` a single letter
(`b` or `i` in the source).  On a failed match attempt the consumed characters
are emitted literally and scanning resumes at the next character, exactly as
the JS regex engine retries from the following index. -/
def repOpen (letter : Char) (repl : List Char) : ROState → List Char → List Char
  | .copy, [] => []
  | .sawLt, [] => ['<']
  | .sawTag oc, [] => ['<', oc]
  | .inAttrs oc buf, [] => '<' :: oc :: buf
  | .copy, c :: r =>
      if c = '<' then repOpen letter repl .sawLt r else c :: repOpen letter repl .copy r
  | .sawLt, c :: r =>
      if Char.toLower c = letter then repOpen letter repl (.sawTag c) r
      else if c = '<' then '<' :: repOpen letter repl .sawLt r
      else '<' :: c :: repOpen letter repl .copy r
  | .sawTag oc, c :: r =>
      if c = '>' then repl ++ repOpen letter repl .copy r
      else if isJsWs c then repOpen letter repl (.inAttrs oc [c]) r
      else if c = '<' then '<' :: oc :: repOpen letter repl .sawLt r
      else '<' :: oc :: c :: repOpen letter repl .copy r
  | .inAttrs oc buf, c :: r =>
      if c = '>' then repl ++ repOpen letter repl .copy r
      else repOpen letter repl (.inAttrs oc (buf ++ [c])) r

/-- State of the `</X>` replacement scanner. -/
inductive RCState where
  | copy
  | s1
  | s2
  | s3 (oc : Char)

/-- Scanner for `replace(/<\/X>/gi, repl)` with `X` a single letter. -/
def repClose (letter : Char) (repl : List Char) : RCState → List Char → List Char
  | .copy, [] => []
  | .s1, [] => ['<']
  | .s2, [] => ['<', '/']
  | .s3 oc, [] => ['<', '/', oc]
  | .copy, c :: r =>
      if c = '<' then repClose letter repl .s1 r else c :: repClose letter repl .copy r
  | .s1, c :: r =>
      if c = '/' then repClose letter repl .s2 r
      else if c = '<' then '<' :: repClose letter repl .s1 r
      else '<' :: c :: repClose letter repl .copy r
  | .s2, c :: r =>
      if Char.toLower c = letter then repClose letter repl (.s3 c) r
      else if c = '<' then '<' :: '/' :: repClose letter repl .s1 r
      else '<' :: '/' :: c :: repClose letter repl .copy r
  | .s3 oc, c :: r =>
      if c = '>' then repl ++ repClose letter repl .copy r
      else if c = '<' then '<' :: '/' :: oc :: repClose letter repl .s1 r
      else '<' :: '/' :: oc :: c :: repClose letter repl .copy r

/-- Scanner for `replace(/<(?!\/?(?:strong|em|u)\b)[^>]*>/gi, '')`.
`none` = copying (a `<` whose suffix passes the allowed-tag lookahead is kept
literally and scanning resumes after it); `some buf` = inside a disallowed
candidate tag, dropped when the closing `>` arrives, or emitted literally at
end of input, where the regex could not have matched. -/
def stripDisallowed : Option (List Char) → List Char → List Char
  | none, [] => []
  | some buf, [] => '<' :: buf
  | none, c :: r =>
      if c = '<' then
        if allowedLook r then '<' :: stripDisallowed none r
        else stripDisallowed (some []) r
      else c :: stripDisallowed none r
  | some buf, c :: r =>
      if c = '>' then stripDisallowed none r
      else stripDisallowed (some (buf ++ [c]))  r

/-- `sanitizeTitle` from `src/utils/sanitize.ts`, on character lists:
normalise `<b ...>`/`</b>` to `<strong>`/`</strong>` and `<i ...>`/`</i>` to
`<em>`/`</em>`, drop every tag that is not `strong`/`em`/`u`, then trim. -/
def sanitizeCore (l : List Char) : List Char :=
  jsTrim (stripDisallowed none
    (repClose 'i' "</em>".data .copy
      (repOpen 'i' "<em>".data .copy
        (repClose 'b' "</strong>".data .copy
          (repOpen 'b' "<strong>".data .copy l)))))

/-- `sanitizeTitle` from `src/utils/sanitize.ts`. -/
def sanitizeTitle (s : String) : String := ⟨sanitizeCore s.data⟩

namespace Part000

/-- State of the `<script[^>]*>[\s\S]*?<\/script>` removal scanner. -/
inductive ScState where
  | copy
  | opening (seen : List Char) (todo : List Char)
  | attrs (seen : List Char)
  | body (seen : List Char) (k : Nat)

/-- The closing pattern `</script>` hunted for by the lazy `[\s\S]*?`. -/
def closeScriptPat : List Char := "</script>".data

/-- Scanner for `replace(/<script[^>]*>[\s\S]*?<\/script>/gi, '')`.
`opening` matches the literal `script` after a `<` (case-insensitively),
`attrs` consumes `[^>]*` up to the `>`, and `body` scans lazily for the first
`</script>` (`k` = characters of it matched so far; since `<` occurs only at
its start, the restart after a mismatch is `1` on `<` and `0` otherwise).
`seen` keeps everything consumed since the `<`, emitted literally at end of
input, where the regex cannot have matched (no later `</script>` exists, so no
match starting inside `seen` is possible either). -/
def stripScripts : ScState → List Char → List Char
  | .copy, [] => []
  | .opening seen _, [] => seen
  | .attrs seen, [] => seen
  | .body seen _, [] => seen
  | .copy, c :: r =>
      if c = '<' then stripScripts (.opening ['<'] "script".data) r
      else c :: stripScripts .copy r
  | .opening seen todo, c :: r =>
      match todo with
      | p :: ps =>
          if Char.toLower c = p then
            match ps with
            | [] => stripScripts (.attrs (seen ++ [c])) r
            | _ :: _ => stripScripts (.opening (seen ++ [c]) ps) r
          else if c = '<' then seen ++ stripScripts (.opening ['<'] "script".data) r
          else seen ++ c :: stripScripts .copy r
      | [] => seen ++ c :: stripScripts .copy r
  | .attrs seen, c :: r =>
      if c = '>' then stripScripts (.body (seen ++ [c]) 0) r
      else stripScripts (.attrs (seen ++ [c])) r
  | .body seen k, c :: r =>
      if Char.toLower c = closeScriptPat.getD k ' ' then
        if k + 1 = 9 then stripScripts .copy r
        else stripScripts (.body (seen ++ [c]) (k + 1)) r
      else if c = '<' then stripScripts (.body (seen ++ [c]) 1) r
      else stripScripts (.body (seen ++ [c]) 0) r

/-- State of the `<(strong|em|u)\s[^>]*>` → `<$1>` scanner. -/
inductive AtState where
  | copy
  | tagStart
  | word (cap : List Char) (todo : List Char)
  | needWs (cap : List Char)
  | attrs (cap : List Char) (buf : List Char)

/-- Scanner for `replace(/<(strong|em|u)\s[^>]*>/gi, '<$1>')`.  The three
alternatives start with distinct letters, so the branch is chosen by the first
character after `<`; `cap` records the tag name as originally written (the
`$1` backreference), `needWs` awaits the mandatory `\s`, `attrs` consumes
`[^>]*` and the final `>` emits the bare `<$1>`. -/
def stripAttrs : AtState → List Char → List Char
  | .copy, [] => []
  | .tagStart, [] => ['<']
  | .word cap _, [] => '<' :: cap
  | .needWs cap, [] => '<' :: cap
  | .attrs cap buf, [] => '<' :: (cap ++ buf)
  | .copy, c :: r =>
      if c = '<' then stripAttrs .tagStart r else c :: stripAttrs .copy r
  | .tagStart, c :: r =>
      if Char.toLower c = 's' then stripAttrs (.word [c] "trong".data) r
      else if Char.toLower c = 'e' then stripAttrs (.word [c] "m".data) r
      else if Char.toLower c = 'u' then stripAttrs (.needWs [c]) r
      else if c = '<' then '<' :: stripAttrs .tagStart r
      else '<' :: c :: stripAttrs .copy r
  | .word cap todo, c :: r =>
      match todo with
      | p :: ps =>
          if Char.toLower c = p then
            match ps with
            | [] => stripAttrs (.needWs (cap ++ [c])) r
            | _ :: _ => stripAttrs (.word (cap ++ [c]) ps) r
          else if c = '<' then ('<' :: cap) ++ stripAttrs .tagStart r
          else ('<' :: cap) ++ c :: stripAttrs .copy r
      | [] => ('<' :: cap) ++ c :: stripAttrs .copy r
  | .needWs cap, c :: r =>
      if isJsWs c then stripAttrs (.attrs cap [c]) r
      else if c = '<' then ('<' :: cap) ++ stripAttrs .tagStart r
      else ('<' :: cap) ++ c :: stripAttrs .copy r
  | .attrs cap buf, c :: r =>
      if c = '>' then ('<' :: cap) ++ '>' :: stripAttrs .copy r
      else stripAttrs (.attrs cap (buf ++ [c])) r

/-- The `sanitizeTitle` variant found in `src/unnamed/part_000`, on character
lists: additionally removes whole `<script ...>...</script>` elements first and
strips attributes from allowed tags last. -/
def sanitizeCore (l : List Char) : List Char :=
  jsTrim (stripAttrs .copy
    (stripDisallowed none
      (repClose 'i' "</em>".data .copy
        (repOpen 'i' "<em>".data .copy
          (repClose 'b' "</strong>".data .copy
            (repOpen 'b' "<strong>".data .copy
              (stripScripts .copy l)))))))

/-- The `sanitizeTitle` variant found in `src/unnamed/part_000`. -/
def sanitizeTitle (s : String) : String := ⟨sanitizeCore s.data⟩

end Part000

/-- `Priority` from `src/types/task.ts`. -/
inductive Priority where
  | low
  | medium
  | high
deriving DecidableEq

/-- `FilterStatus` from `src/types/task.ts`. -/
inductive FilterStatus where
  | all
  | active
  | completed
deriving DecidableEq

/-- `Task` from `src/types/task.ts` (`dueDate?:` becomes `Option String`). -/
structure Task where
  id : String
  title : String
  completed : Bool
  priority : Priority
  createdAt : String
  dueDate : Option String
deriving DecidableEq

/-- `NewTaskInput` from `src/types/task.ts`. -/
structure NewTaskInput where
  title : String
  priority : Priority
  dueDate : Option String
deriving DecidableEq

/-- `addTask` from `src/hooks/useTasks.ts`.  The browser-supplied
`crypto.randomUUID()` and `new Date().toISOString()` values are passed in as
`newId` and `now`; the new task is prepended to `prev`. -/
def addTask (newId now : String) (input : NewTaskInput) (prev : List Task) : List Task :=
  { id := newId
    title := jsTrimStr input.title
    completed := false
    priority := input.priority
    createdAt := now
    dueDate := input.dueDate } :: prev

/-- `toggleTask` from `src/hooks/useTasks.ts`. -/
def toggleTask (id : String) (prev : List Task) : List Task :=
  prev.map (fun t => if t.id = id then { t with completed := !t.completed } else t)

/-- `deleteTask` from `src/hooks/useTasks.ts`. -/
def deleteTask (id : String) (prev : List Task) : List Task :=
  prev.filter (fun t => !(t.id == id))

/-- `clearCompleted` from `src/hooks/useTasks.ts`. -/
def clearCompleted (prev : List Task) : List Task :=
  prev.filter (fun t => !t.completed)

/-- `updateTask` from `src/hooks/useTasks.ts`. -/
def updateTask (id : String) (title : String) (prev : List Task) : List Task :=
  prev.map (fun t => if t.id = id then { t with title := title } else t)

/-- `Array.prototype.findIndex`, with `-1` rendered as `none`. -/
def findIndex (p : Task → Bool) : List Task → Option Nat
  | [] => none
  | t :: ts => if p t then some 0 else (findIndex p ts).map (· + 1)

/-- `array.splice(i, 1)`: the removed element (if any) and the remaining list. -/
def spliceOne {α : Type} : List α → Nat → Option α × List α
  | [], _ => (none, [])
  | x :: xs, 0 => (some x, xs)
  | x :: xs, n + 1 => ((spliceOne xs n).1, x :: (spliceOne xs n).2)

/-- `array.splice(n, 0, a)`: insert `a` at index `n`, clamped to the length. -/
def spliceInsert {α : Type} : List α → Nat → α → List α
  | l, 0, a => a :: l
  | [], _ + 1, a => [a]
  | x :: xs, n + 1, a => x :: spliceInsert xs n a

/-- Modelled from the spec: `arrayMove` comes from the external `@dnd-kit/sortable`
dependency (not part of this repository's sources); the spec describes it as
"array-move semantics: remove then reinsert".  With a valid `from` index this is
remove-at-`from` followed by insert-at-`to`; `reorderTasks` only calls it with
indices produced by successful `findIndex` calls, so the `none` branch (where the
JS original would insert `undefined`) is unreachable and returns the remainder. -/
def arrayMove {α : Type} (l : List α) (i j : Nat) : List α :=
  match spliceOne l i with
  | (some x, rest) => spliceInsert rest j x
  | (none, rest) => rest

/-- `reorderTasks` from `src/hooks/useTasks.ts`. -/
def reorderTasks (activeId overId : String) (prev : List Task) : List Task :=
  match findIndex (fun t => t.id == activeId) prev, findIndex (fun t => t.id == overId) prev with
  | some oldIndex, some newIndex => arrayMove prev oldIndex newIndex
  | _, _ => prev

/-- The `stats` record derived in `useTasks`. -/
structure Stats where
  total : Nat
  active : Nat
  completed : Nat
deriving DecidableEq

/-- `stats` from `src/hooks/useTasks.ts`: counts over the full collection. -/
def stats (tasks : List Task) : Stats :=
  { total := tasks.length
    active := (tasks.filter (fun t => !t.completed)).length
    completed := (tasks.filter (fun t => t.completed)).length }

/-- The status predicate of `filteredTasks` (`filterStatus` match). -/
def statusMatch (filterStatus : FilterStatus) (t : Task) : Bool :=
  filterStatus == .all ||
  (filterStatus == .active && !t.completed) ||
  (filterStatus == .completed && t.completed)

/-- The priority predicate of `filteredTasks` (`filterPriority` match);
`none` models the `'all'` variant of `Priority | 'all'`. -/
def priorityMatch (filterPriority : Option Priority) (t : Task) : Bool :=
  filterPriority == none || some t.priority == filterPriority

/-- `filteredTasks` from `src/hooks/useTasks.ts`. -/
def filteredTasks (filterStatus : FilterStatus) (filterPriority : Option Priority)
    (tasks : List Task) : List Task :=
  tasks.filter (fun t => statusMatch filterStatus t && priorityMatch filterPriority t)

/-- `StorageError` from `src/hooks/useTasks.ts` without the `null` case
(`null` is modelled as `none` of `Option StorageErrorKind`). -/
inductive StorageErrorKind where
  | full
  | disabled
deriving DecidableEq

/-- The shape of a thrown JS error as far as `isQuotaError` inspects it:
whether it is a `DOMException`, its `code` and its `name`. -/
structure JsError where
  isDOMException : Bool
  code : Nat
  name : String

/-- `isQuotaError` from `src/hooks/useTasks.ts`. -/
def isQuotaError (err : JsError) : Bool :=
  err.isDOMException &&
  (err.code == 22 || err.name == "QuotaExceededError" || err.name == "NS_ERROR_DOM_QUOTA_REACHED")

/-- Outcome of a `localStorage.setItem` attempt: success, or a thrown error. -/
inductive SaveOutcome where
  | ok
  | err (e : JsError)

/-- The state owned by `useTasks` that the claims are about. -/
structure TasksState where
  tasks : List Task
  filterStatus : FilterStatus
  filterPriority : Option Priority
  storageError : Option StorageErrorKind

/-- The persistence effect of `useTasks`: a successful save resets
`storageError` to `null`; a failed one classifies the thrown error via
`isQuotaError` into `full` or `disabled`. -/
def applySave (o : SaveOutcome) (s : TasksState) : TasksState :=
  match o with
  | .ok => { s with storageError := none }
  | .err e =>
      { s with storageError := some (if isQuotaError e then .full else .disabled) }

/-- One mutation step of the store: the `setTasks` update `m` is applied to the
in-memory collection, then the save effect runs with outcome `o`. -/
def mutateAndSave (m : List Task → List Task) (o : SaveOutcome) (s : TasksState) : TasksState :=
  applySave o { s with tasks := m s.tasks }

/-- `setFilterStatus` from `useTasks`. -/
def setFilterStatus (v : FilterStatus) (s : TasksState) : TasksState :=
  { s with filterStatus := v }

/-- `setFilterPriority` from `useTasks` (`none` = `'all'`). -/
def setFilterPriority (v : Option Priority) (s : TasksState) : TasksState :=
  { s with filterPriority := v }

/-- The `stats` value exposed by the hook for a given state. -/
def storeStats (s : TasksState) : Stats := stats s.tasks

/-- What `localStorage.getItem(STORAGE_KEY)` can yield at load time: no entry
(`null`), a stored string, or a thrown error (e.g. `SecurityError` when the
store is disabled). -/
inductive StorageRead where
  | missing
  | got (s : String)
  | raises

/-- `loadTasks` from `src/hooks/useTasks.ts`.  `JSON.parse` is external
(a browser builtin), so it is passed in as `parseTasks`, with `none` standing
for a parse exception; the surrounding `try/catch` maps every exception —
a thrown `getItem`, or a `JSON.parse` failure on corrupt data — to `[]`, and a
falsy (`null` or empty) stored value short-circuits to `[]`. -/
def loadTasks (parseTasks : String → Option (List Task)) (read : StorageRead) : List Task :=
  match read with
  | .got s => if s = "" then [] else
      match parseTasks s with
      | some ts => ts
      | none => []
  | .missing => []
  | .raises => []

/-- `submit` from `src/components/AddTask.tsx`, composed with the `onAdd`
callback it is wired to (`addTask`): read the editor HTML, bail out if its
plain text is empty, otherwise add a task titled with the sanitized HTML
(`dueDate || undefined` turns the empty string into `none`). -/
def submit (newId now : String) (html : String) (priority : Priority) (dueDate : String)
    (tasks : List Task) : List Task :=
  if plainText html = "" then tasks
  else addTask newId now
    { title := sanitizeTitle html
      priority := priority
      dueDate := if dueDate = "" then none else some dueDate } tasks

/-- An `addTask` call together with the browser-generated values it consumes. -/
structure AddCall where
  newId : String
  now : String
  input : NewTaskInput

/-- A sequence of `addTask` calls applied in order to an initial collection. -/
def applyAdds (calls : List AddCall) (init : List Task) : List Task :=
  calls.foldl (fun acc e => addTask e.newId e.now e.input acc) init

/-! ## Theorems -/

/-- C4: the persistence-error signal follows the `{ok, full, disabled}` state
machine — a save raising a quota-type failure yields `full`, any other failure
yields `disabled`, a successful save resets the signal to `null` — and the
in-memory mutation that triggered the save always takes effect, whatever the
save outcome. -/
theorem C4_storage_error_state_machine :
    ∀ (s : TasksState) (m : List Task → List Task) (e : JsError),
      (mutateAndSave m .ok s).storageError = none ∧
      (mutateAndSave m (.err e) s).storageError
        = some (if isQuotaError e then .full else .disabled) ∧
      (∀ o : SaveOutcome, (mutateAndSave m o s).tasks = m s.tasks) := by
  intro s m e
  refine ⟨rfl, rfl, ?_⟩
  intro o
  cases o <;> rfl

/-- C5: `loadTasks` is total (never raises): a missing key yields the empty
collection, a `getItem` that throws yields the empty collection, and a stored
value on which `JSON.parse` fails (corrupt JSON) yields the empty collection. -/
theorem C5_loadTasks_never_raises :
    ∀ parseTasks : String → Option (List Task),
      loadTasks parseTasks .missing = [] ∧
      loadTasks parseTasks .raises = [] ∧
      (∀ s : String, parseTasks s = none → loadTasks parseTasks (.got s) = []) := by
  intro p
  refine ⟨rfl, rfl, ?_⟩
  intro s h
  unfold loadTasks
  by_cases hs : s = ""
  · simp [hs]
  · simp [hs, h]

/-- Witness for C5 at the spec's corrupted stored value. -/
theorem C5_loadTasks_never_raises_witness :
    (fun _ : String => (none : Option (List Task))) "not valid json \x7b\x7b\x7b\x7b" = none ∧
    loadTasks (fun _ => none) (.got "not valid json \x7b\x7b\x7b\x7b") = [] :=
  ⟨rfl, (C5_loadTasks_never_raises (fun _ => none)).2.2 _ rfl⟩

/-- In any collection, the active and completed counts partition the length. -/
theorem length_filter_completed_split (l : List Task) :
    (l.filter fun t => !t.completed).length + (l.filter fun t => t.completed).length
      = l.length := by
  induction l with
  | nil => rfl
  | cons t ts ih => by_cases h : t.completed <;> simp [h] <;> omega

/-- C6: in every store state, `stats.total` is the length of the full
collection, `stats.active + stats.completed = stats.total`, and stats are
computed over the entire collection, so changing either filter never changes
any of the three counts. -/
theorem C6_stats_full_collection :
    ∀ s : TasksState,
      (storeStats s).total = s.tasks.length ∧
      (storeStats s).active + (storeStats s).completed = (storeStats s).total ∧
      (∀ v, storeStats (setFilterStatus v s) = storeStats s) ∧
      (∀ p, storeStats (setFilterPriority p s) = storeStats s) := by
  intro s
  exact ⟨rfl, length_filter_completed_split s.tasks, fun _ => rfl, fun _ => rfl⟩

/-- C9: `clearCompleted` removes exactly the completed tasks, keeps the
remaining ones in their relative order (the result is a sublist of the input),
and is a no-op when no task is completed. -/
theorem C9_clearCompleted_spec :
    ∀ l : List Task,
      (∀ t, t ∈ clearCompleted l ↔ t ∈ l ∧ t.completed = false) ∧
      List.Sublist (clearCompleted l) l ∧
      ((∀ t ∈ l, t.completed = false) → clearCompleted l = l) := by
  intro l
  refine ⟨?_, ?_, ?_⟩
  · intro t
    simp [clearCompleted, List.mem_filter]
  · exact List.filter_sublist l
  · intro h
    apply List.filter_eq_self.mpr
    intro t ht
    simp [h t ht]

/-- Witness for C9: a collection with no completed task is left unchanged. -/
theorem C9_clearCompleted_spec_witness :
    (∀ t ∈ [Task.mk "a" "A" false .low "t0" none, Task.mk "b" "B" false .high "t1" none],
      t.completed = false) ∧
    clearCompleted [Task.mk "a" "A" false .low "t0" none, Task.mk "b" "B" false .high "t1" none]
      = [Task.mk "a" "A" false .low "t0" none, Task.mk "b" "B" false .high "t1" none] :=
  ⟨by decide, (C9_clearCompleted_spec _).2.2 (by decide)⟩

/-- C10: `addTask` builds the new task from the trimmed title, the given
priority and optional due date, with `completed = false` and the freshly
generated id, and prepends it, leaving all previous tasks untouched; hence
after any sequence of adds the most recent task is at index 0; and a fresh id
keeps the collection's ids pairwise distinct. -/
theorem C10_addTask_prepends :
    ∀ (newId now : String) (input : NewTaskInput) (l : List Task),
      addTask newId now input l =
        { id := newId, title := jsTrimStr input.title, completed := false,
          priority := input.priority, createdAt := now, dueDate := input.dueDate } :: l ∧
      (∀ (calls : List AddCall) (e : AddCall) (init : List Task),
        (applyAdds (calls ++ [e]) init).head? =
          some { id := e.newId, title := jsTrimStr e.input.title, completed := false,
                 priority := e.input.priority, createdAt := e.now, dueDate := e.input.dueDate } ∧
        (applyAdds (calls ++ [e]) init).tail = applyAdds calls init) ∧
      (newId ∉ l.map Task.id → (l.map Task.id).Nodup →
        ((addTask newId now input l).map Task.id).Nodup) := by
  intro newId now input l
  refine ⟨rfl, ?_, ?_⟩
  · intro calls e init
    constructor <;> simp [applyAdds, addTask]
  · intro h1 h2
    simp only [addTask, List.map_cons]
    exact List.Nodup.cons h1 h2

/-- A successful `findIndex` returns an index inside the list. -/
theorem findIndex_lt_length :
    ∀ (p : Task → Bool) (l : List Task) (i : Nat), findIndex p l = some i → i < l.length := by
  intro p l
  induction l with
  | nil => intro i h; simp [findIndex] at h
  | cons t ts ih =>
      intro i h
      unfold findIndex at h
      by_cases hp : p t
      · rw [if_pos hp] at h
        cases h
        simp
      · rw [if_neg hp] at h
        cases hf : findIndex p ts with
        | none => rw [hf] at h; simp at h
        | some i' =>
            rw [hf] at h
            simp at h
            have hlt := ih i' hf
            simp only [List.length_cons]
            omega

/-- The element removed by `splice(i, 1)` is the one at index `i`. -/
theorem spliceOne_fst {α : Type} :
    ∀ (l : List α) (i : Nat), (spliceOne l i).1 = l[i]? := by
  intro l
  induction l with
  | nil => intro i; cases i <;> rfl
  | cons x xs ih => intro i; cases i <;> simp [spliceOne, ih]

/-- `splice(i, 1)` with a hit shortens the list by one. -/
theorem spliceOne_len {α : Type} :
    ∀ (l : List α) (i : Nat) (x : α),
      (spliceOne l i).1 = some x → (spliceOne l i).2.length + 1 = l.length := by
  intro l
  induction l with
  | nil => intro i x h; cases i <;> simp [spliceOne] at h
  | cons y ys ih =>
      intro i x h
      cases i with
      | zero => simp [spliceOne]
      | succ n =>
          simp only [spliceOne] at h ⊢
          simp [ih n x h]

/-- Removing at `i` and reinserting at `i` restores the list. -/
theorem spliceOne_restore {α : Type} :
    ∀ (l : List α) (i : Nat) (x : α),
      (spliceOne l i).1 = some x → spliceInsert (spliceOne l i).2 i x = l := by
  intro l
  induction l with
  | nil => intro i x h; cases i <;> simp [spliceOne] at h
  | cons y ys ih =>
      intro i x h
      cases i with
      | zero =>
          simp only [spliceOne] at h ⊢
          simp at h
          simp [spliceInsert, h]
      | succ n =>
          simp only [spliceOne] at h ⊢
          simp [spliceInsert, ih n x h]

/-- The inserted element sits at the insertion index. -/
theorem spliceInsert_getElem_self {α : Type} :
    ∀ (l : List α) (j : Nat) (x : α), j ≤ l.length → (spliceInsert l j x)[j]? = some x := by
  intro l
  induction l with
  | nil =>
      intro j x h
      have : j = 0 := by simpa using h
      subst this
      rfl
  | cons y ys ih =>
      intro j x h
      cases j with
      | zero => rfl
      | succ n => simpa [spliceInsert] using ih n x (by simpa using h)

/-- C7: `reorder(activeId, overId)` is a no-op when the two ids coincide or
when either id is absent; when both are found, at indices `i` (active) and `j`
(over), the result is the remove-then-reinsert array move — the active task is
removed from index `i`, reinserted at index `j`, and therefore ends up at the
index previously occupied by the over task. -/
theorem C7_reorderTasks_spec :
    ∀ (l : List Task) (a o : String),
      (a = o → reorderTasks a o l = l) ∧
      ((findIndex (fun t => t.id == a) l = none ∨ findIndex (fun t => t.id == o) l = none) →
        reorderTasks a o l = l) ∧
      (∀ (i j : Nat) (x : Task),
        findIndex (fun t => t.id == a) l = some i →
        findIndex (fun t => t.id == o) l = some j →
        l[i]? = some x →
        reorderTasks a o l = spliceInsert (spliceOne l i).2 j x ∧
        (reorderTasks a o l)[j]? = some x) := by
  intro l a o
  refine ⟨?_, ?_, ?_⟩
  · intro h
    subst h
    unfold reorderTasks
    cases hf : findIndex (fun t => t.id == a) l with
    | none => simp
    | some i =>
        simp only [arrayMove]
        have hlt := findIndex_lt_length _ _ _ hf
        have hx : (spliceOne l i).1 = some l[i] := by
          rw [spliceOne_fst]
          exact List.getElem?_eq_getElem hlt
        have hres := spliceOne_restore l i l[i] hx
        cases hsp : spliceOne l i with
        | mk f s =>
            rw [hsp] at hx hres
            simp at hx
            subst hx
            simpa using hres
  · intro h
    unfold reorderTasks
    rcases h with h | h
    · rw [h]
    · rw [h]
      cases findIndex (fun t => t.id == a) l <;> rfl
  · intro i j x hi hj hx
    have hbase : reorderTasks a o l = spliceInsert (spliceOne l i).2 j x := by
      have hfst : (spliceOne l i).1 = some x := by rw [spliceOne_fst]; exact hx
      cases hsp : spliceOne l i with
      | mk f s =>
          rw [hsp] at hfst
          simp at hfst
          subst hfst
          simp [reorderTasks, hi, hj, arrayMove, hsp]
    refine ⟨hbase, ?_⟩
    rw [hbase]
    apply spliceInsert_getElem_self
    have h1 : (spliceOne l i).1 = some x := by rw [spliceOne_fst]; exact hx
    have h2 := spliceOne_len l i x h1
    have h3 := findIndex_lt_length _ _ _ hj
    omega

/-- Witness for C7, mirroring the repo's own reorder test: with the collection
`[C, B, A]`, moving `C` onto `A` yields `[B, A, C]`; the same-id call and the
unknown-id call leave the collection unchanged. -/
theorem C7_reorderTasks_spec_witness :
    (findIndex (fun t => t.id == "c")
        [Task.mk "c" "C" false .low "t" none, Task.mk "b" "B" false .low "t" none,
         Task.mk "a" "A" false .low "t" none] = some 0) ∧
    (findIndex (fun t => t.id == "a")
        [Task.mk "c" "C" false .low "t" none, Task.mk "b" "B" false .low "t" none,
         Task.mk "a" "A" false .low "t" none] = some 2) ∧
    reorderTasks "c" "a"
        [Task.mk "c" "C" false .low "t" none, Task.mk "b" "B" false .low "t" none,
         Task.mk "a" "A" false .low "t" none]
      = [Task.mk "b" "B" false .low "t" none, Task.mk "a" "A" false .low "t" none,
         Task.mk "c" "C" false .low "t" none] ∧
    reorderTasks "b" "b"
        [Task.mk "c" "C" false .low "t" none, Task.mk "b" "B" false .low "t" none,
         Task.mk "a" "A" false .low "t" none]
      = [Task.mk "c" "C" false .low "t" none, Task.mk "b" "B" false .low "t" none,
         Task.mk "a" "A" false .low "t" none] ∧
    reorderTasks "ghost" "a"
        [Task.mk "c" "C" false .low "t" none, Task.mk "b" "B" false .low "t" none,
         Task.mk "a" "A" false .low "t" none]
      = [Task.mk "c" "C" false .low "t" none, Task.mk "b" "B" false .low "t" none,
         Task.mk "a" "A" false .low "t" none] := by
  refine ⟨by decide, by decide, ?_, ?_, ?_⟩
  · exact ((C7_reorderTasks_spec _ "c" "a").2.2 0 2
      (Task.mk "c" "C" false .low "t" none) (by decide) (by decide)
      (by decide)).1.trans (by decide)
  · exact (C7_reorderTasks_spec _ "b" "b").1 rfl
  · exact (C7_reorderTasks_spec _ "ghost" "a").2.1 (Or.inl (by decide))

/-- C8: `toggle(id)` is an involution on the collection (so applying it twice
returns the matching task's `completed` flag, and everything else, to the
original state); a single application leaves every task whose id differs
untouched; and when no task carries the id the collection is unchanged. -/
theorem C8_toggleTask_involution :
    ∀ (l : List Task) (id : String),
      toggleTask id (toggleTask id l) = l ∧
      (∀ (i : Nat) (x : Task), l[i]? = some x → x.id ≠ id → (toggleTask id l)[i]? = some x) ∧
      ((∀ t ∈ l, t.id ≠ id) → toggleTask id l = l) := by
  intro l id
  refine ⟨?_, ?_, ?_⟩
  · induction l with
    | nil => rfl
    | cons t ts ih =>
        simp only [toggleTask, List.map_cons] at ih ⊢
        rw [ih]
        obtain ⟨tid, ttitle, tc, tp, tca, td⟩ := t
        by_cases h : tid = id <;> simp [h, Bool.not_not]
  · intro i x hx hne
    simp only [toggleTask, List.getElem?_map, hx, Option.map_some']
    simp [hne]
  · intro h
    induction l with
    | nil => rfl
    | cons t ts ih =>
        simp only [toggleTask, List.map_cons]
        have ht := h t (by simp)
        have : toggleTask id ts = ts := ih (fun u hu => h u (by simp [hu]))
        simp only [toggleTask] at this
        rw [this]
        simp [ht]

/-- Witness for C8: in a two-task collection, toggling `"a"` leaves the task
`"b"` (at index 1) untouched, and toggling an id that is absent leaves the
collection unchanged. -/
theorem C8_toggleTask_involution_witness :
    ((Task.mk "b" "B" false .high "t1" none).id ≠ "a") ∧
    (toggleTask "a" [Task.mk "a" "A" false .low "t0" none,
                     Task.mk "b" "B" false .high "t1" none])[1]?
      = some (Task.mk "b" "B" false .high "t1" none) ∧
    toggleTask "zz" [Task.mk "a" "A" false .low "t0" none,
                     Task.mk "b" "B" false .high "t1" none]
      = [Task.mk "a" "A" false .low "t0" none, Task.mk "b" "B" false .high "t1" none] :=
  ⟨by decide,
    (C8_toggleTask_involution _ "a").2.1 1 _ (by decide) (by decide),
    (C8_toggleTask_involution _ "zz").2.2 (by decide)⟩

/-- C1: the sanitizer is not injection-safe.  On the nested malformed input
`<u<div>x onclick=alert(1)>` both the `src/utils/sanitize.ts` version and the
`part_000` variant emit `<ux onclick=alert(1)>` — a retained tag that is
neither bare nor one of the three allowed tags and that carries a scriptable
attribute; the `src/utils/sanitize.ts` version moreover keeps attributes on
allowed tags verbatim, contradicting its own doc comment and test suite. -/
theorem C1_sanitizer_unsafe_output :
    sanitizeTitle "<u<div>x onclick=alert(1)>" = "<ux onclick=alert(1)>" ∧
    Part000.sanitizeTitle "<u<div>x onclick=alert(1)>" = "<ux onclick=alert(1)>" ∧
    sanitizeTitle "<strong onclick=\"evil()\">text</strong>"
      = "<strong onclick=\"evil()\">text</strong>" := by
  refine ⟨by decide, by decide, by decide⟩

/-- C2: on `<script>alert(1)</script>text` the `src/utils/sanitize.ts` version
of `sanitizeTitle` returns `alert(1)text` — the script element's payload
survives as text, contradicting the repo's own test (`→ 'text'`) — while the
`part_000` variant returns `text` as the claim states. -/
theorem C2_sanitizeTitle_script_payload :
    sanitizeTitle "<script>alert(1)</script>text" = "alert(1)text" ∧
    Part000.sanitizeTitle "<script>alert(1)</script>text" = "text" := by
  refine ⟨by decide, by decide⟩

/-- JS whitespace is not `<`. -/
theorem isJsWs_ne_lt {c : Char} (h : isJsWs c = true) : c ≠ '<' := by
  intro h'
  subst h'
  revert h
  decide

/-- JS whitespace is not `>`. -/
theorem isJsWs_ne_gt {c : Char} (h : isJsWs c = true) : c ≠ '>' := by
  intro h'
  subst h'
  revert h
  decide

/-- The tag stripper copies a whitespace prefix verbatim. -/
theorem ptAux_ws_left (w : List Char) (hw : ∀ c ∈ w, isJsWs c = true) (l : List Char) :
    ptAux (w ++ l) none = w ++ ptAux l none := by
  induction w with
  | nil => rfl
  | cons c w ih =>
      have hc : c ≠ '<' := isJsWs_ne_lt (hw c (by simp))
      simpa [ptAux, hc] using ih (fun c hc => hw c (by simp [hc]))

/-- In tag mode, an all-whitespace remainder (no `>`) never closes the tag:
the pending `<` and buffer are flushed literally. -/
theorem ptAux_ws_some (w : List Char) (hw : ∀ c ∈ w, isJsWs c = true) :
    ∀ buf, ptAux w (some buf) = '<' :: (buf ++ w) := by
  induction w with
  | nil => intro buf; simp [ptAux]
  | cons c w ih =>
      intro buf
      have hc : c ≠ '>' := isJsWs_ne_gt (hw c (by simp))
      simp only [ptAux, if_neg hc]
      rw [ih (fun c hc => hw c (by simp [hc]))]
      simp

/-- The tag stripper leaves an all-whitespace input unchanged. -/
theorem ptAux_ws_none (w : List Char) (hw : ∀ c ∈ w, isJsWs c = true) :
    ptAux w none = w := by
  induction w with
  | nil => rfl
  | cons c w ih =>
      have hc : c ≠ '<' := isJsWs_ne_lt (hw c (by simp))
      simp only [ptAux, if_neg hc]
      rw [ih (fun c hc => hw c (by simp [hc]))]

/-- The tag stripper commutes with an all-whitespace suffix: whitespace contains
neither `<` nor `>`, so no match continues into it or starts inside it. -/
theorem ptAux_ws_right (w : List Char) (hw : ∀ c ∈ w, isJsWs c = true) :
    ∀ l : List Char,
      ptAux (l ++ w) none = ptAux l none ++ w ∧
      (∀ buf, ptAux (l ++ w) (some buf) = ptAux l (some buf) ++ w) := by
  intro l
  induction l with
  | nil =>
      refine ⟨by simpa using ptAux_ws_none w hw, ?_⟩
      intro buf
      simpa [ptAux] using ptAux_ws_some w hw buf
  | cons c l ih =>
      constructor
      · by_cases hc : c = '<'
        · subst hc
          simpa [ptAux] using ih.2 []
        · simpa [ptAux, hc] using ih.1
      · intro buf
        by_cases hc : c = '>'
        · subst hc
          by_cases hb : buf = []
          · subst hb
            simpa [ptAux] using ih.1
          · simpa [ptAux, hb] using ih.1
        · simpa [ptAux, hc] using ih.2 (buf ++ [c])

/-- `dropWhile` over an all-satisfying prefix. -/
theorem dropWhile_ws_append (w : List Char) (hw : ∀ c ∈ w, isJsWs c = true) (l : List Char) :
    List.dropWhile isJsWs (w ++ l) = List.dropWhile isJsWs l := by
  induction w with
  | nil => rfl
  | cons c w ih =>
      simp only [List.cons_append, List.dropWhile_cons, if_pos (hw c (by simp))]
      exact ih (fun c hc => hw c (by simp [hc]))

/-- `dropWhile` annihilates an all-whitespace list. -/
theorem dropWhile_ws_all (w : List Char) (hw : ∀ c ∈ w, isJsWs c = true) :
    List.dropWhile isJsWs w = [] := by
  have h := dropWhile_ws_append w hw []
  rwa [List.append_nil] at h

/-- `trim` ignores an all-whitespace prefix. -/
theorem jsTrim_ws_left (w : List Char) (hw : ∀ c ∈ w, isJsWs c = true) (l : List Char) :
    jsTrim (w ++ l) = jsTrim l := by
  unfold jsTrim jsTrimL
  rw [dropWhile_ws_append w hw l]

/-- Right-trimming ignores an all-whitespace suffix. -/
theorem jsTrimR_ws_right (l : List Char) (w : List Char) (hw : ∀ c ∈ w, isJsWs c = true) :
    jsTrimR (l ++ w) = jsTrimR l := by
  unfold jsTrimR
  rw [List.reverse_append]
  rw [dropWhile_ws_append w.reverse (fun c hc => hw c (List.mem_reverse.mp hc)) l.reverse]

/-- `trim` ignores an all-whitespace suffix. -/
theorem jsTrim_ws_right (l : List Char) (w : List Char) (hw : ∀ c ∈ w, isJsWs c = true) :
    jsTrim (l ++ w) = jsTrim l := by
  unfold jsTrim jsTrimL
  rw [List.dropWhile_append]
  by_cases h : (List.dropWhile isJsWs l).isEmpty
  · rw [if_pos h]
    rw [dropWhile_ws_all w hw]
    have : List.dropWhile isJsWs l = [] := by
      cases hd : List.dropWhile isJsWs l
      · rfl
      · rw [hd] at h; simp [List.isEmpty] at h
    rw [this]
  · rw [if_neg h]
    exact jsTrimR_ws_right _ w hw

/-- Trimming before stripping tags gives the same plain text as stripping then
trimming: the trimmed-away edges are whitespace, which the tag regex can
neither consume nor match into. -/
theorem plainText_core_trim (l : List Char) :
    jsTrim (ptAux (jsTrim l) none) = jsTrim (ptAux l none) := by
  have hsplitL : l.takeWhile isJsWs ++ jsTrimL l = l :=
    List.takeWhile_append_dropWhile isJsWs l
  have hwL : ∀ c ∈ l.takeWhile isJsWs, isJsWs c = true :=
    fun c hc => List.mem_takeWhile_imp hc
  have hsplitR : jsTrimL l = jsTrim l ++ ((jsTrimL l).reverse.takeWhile isJsWs).reverse := by
    have h1 : (jsTrimL l).reverse.takeWhile isJsWs ++ (jsTrimL l).reverse.dropWhile isJsWs
        = (jsTrimL l).reverse := List.takeWhile_append_dropWhile isJsWs (jsTrimL l).reverse
    conv_lhs => rw [← List.reverse_reverse (jsTrimL l), ← h1]
    rw [List.reverse_append]
    rfl
  have hwR : ∀ c ∈ ((jsTrimL l).reverse.takeWhile isJsWs).reverse, isJsWs c = true :=
    fun c hc => List.mem_takeWhile_imp (List.mem_reverse.mp hc)
  calc jsTrim (ptAux (jsTrim l) none)
      = jsTrim (ptAux (jsTrim l) none ++ ((jsTrimL l).reverse.takeWhile isJsWs).reverse) := by
        rw [jsTrim_ws_right _ _ hwR]
    _ = jsTrim (ptAux (jsTrim l ++ ((jsTrimL l).reverse.takeWhile isJsWs).reverse) none) := by
        rw [(ptAux_ws_right _ hwR (jsTrim l)).1]
    _ = jsTrim (ptAux (jsTrimL l) none) := by rw [← hsplitR]
    _ = jsTrim (l.takeWhile isJsWs ++ ptAux (jsTrimL l) none) := by
        rw [jsTrim_ws_left _ hwL]
    _ = jsTrim (ptAux (l.takeWhile isJsWs ++ jsTrimL l) none) := by
        rw [ptAux_ws_left _ hwL]
    _ = jsTrim (ptAux l none) := by rw [hsplitL]

/-- `plainText` is invariant under pre-trimming the input. -/
theorem plainText_jsTrimStr (s : String) : plainText (jsTrimStr s) = plainText s :=
  congrArg String.mk (plainText_core_trim s.data)

/-- C3: whenever the plain-text view of the trimmed title is empty, the
add-task submission is a silent no-op: the collection is returned unchanged
and no task is created. -/
theorem C3_submit_noop_on_empty_title :
    ∀ (newId now html : String) (p : Priority) (d : String) (tasks : List Task),
      plainText (jsTrimStr html) = "" → submit newId now html p d tasks = tasks := by
  intro newId now html p d tasks h
  rw [plainText_jsTrimStr] at h
  unfold submit
  rw [if_pos h]

/-- Witness for C3: submitting a title whose markup has no text content
(`<strong></strong>`) leaves the collection unchanged. -/
theorem C3_submit_noop_on_empty_title_witness :
    plainText (jsTrimStr "<strong></strong>") = "" ∧
    submit "id1" "t0" "<strong></strong>" .medium "" [] = [] :=
  ⟨by decide,
    C3_submit_noop_on_empty_title "id1" "t0" "<strong></strong>" .medium "" [] (by decide)⟩

/-- Witness for C10: adding a task with an unused id to a two-task collection
keeps the ids pairwise distinct. -/
theorem C10_addTask_prepends_witness :
    ("c" ∉ ([Task.mk "a" "A" false .low "t0" none,
             Task.mk "b" "B" false .high "t1" none].map Task.id)) ∧
    (([Task.mk "a" "A" false .low "t0" none,
       Task.mk "b" "B" false .high "t1" none].map Task.id).Nodup) ∧
    ((addTask "c" "t2" ⟨"C", .medium, none⟩
        [Task.mk "a" "A" false .low "t0" none,
         Task.mk "b" "B" false .high "t1" none]).map Task.id).Nodup :=
  ⟨by decide, by decide,
    (C10_addTask_prepends "c" "t2" ⟨"C", .medium, none⟩ _).2.2 (by decide) (by decide)⟩

end TaskFlow
